import Mathlib

/-!
Verification of the documentation-generator core (doc_generator.py,
run_doc_generator.py, test_json_fix.py).

Strings are modelled as `List Char`; Python slicing, `str.strip`,
`str.find`, `str.rfind`, substring tests and `str.lower` are embedded as
executable functions below.  Machine time is modelled as `Int` seconds;
`time.sleep(d)` is modelled as advancing the clock by exactly `d`.
Calls to external collaborators (the Gemini service, the screenshot and
mermaid renderers) are modelled as oracle functions passed in as
parameters, so every pipeline function below is a pure function of the
oracle answers.
-/

/-! ## Python string primitives -/

/-- The backtick character, written via its code point. -/
def btChar : Char := Char.ofNat 96

/-- Three backticks: the markdown fence marker. -/
def bt3 : List Char := [btChar, btChar, btChar]

/-- Python `str.strip` whitespace set: space, tab, newline, carriage
return, vertical tab, form feed. -/
def pyIsSpace (c : Char) : Bool :=
  c == ' ' || c == '\t' || c == '\n' || c == '\r' ||
  c == Char.ofNat 11 || c == Char.ofNat 12

/-- Python `str.lstrip()`. -/
def pyLstrip (s : List Char) : List Char := s.dropWhile pyIsSpace

/-- Python `str.rstrip()`. -/
def pyRstrip (s : List Char) : List Char := (s.reverse.dropWhile pyIsSpace).reverse

/-- Python `str.strip()`. -/
def pyStrip (s : List Char) : List Char := pyLstrip (pyRstrip s)

/-- Python `s.startswith('```')`. -/
def startsWithFence (s : List Char) : Bool := s.take 3 == bt3

/-- Python `s.endswith('```')`. -/
def endsWithFence (s : List Char) : Bool := s.drop (s.length - 3) == bt3

/-- Python `s.find('\n')`: index of the first newline, `none` for -1. -/
def findNewline (s : List Char) : Option Nat := s.findIdx? (· == '\n')

/-- Python `s.rfind('```')`: start index of the last occurrence of three
backticks, `-1` when absent. -/
def rfindFence (s : List Char) : Int :=
  match (((List.range (s.length + 1)).filter
      (fun i => (s.drop i).take 3 == bt3)).getLast?) with
  | some i => (i : Int)
  | none => -1

/-- Python `s[:k]` including negative-index semantics. -/
def pySliceTo (s : List Char) (k : Int) : List Char :=
  if 0 ≤ k then s.take k.toNat else s.take ((s.length : Int) + k).toNat

/-- Python `pat in s`: substring containment. -/
def strContains (s pat : List Char) : Bool :=
  (List.range (s.length + 1)).any (fun i => (s.drop i).take pat.length == pat)

/-- Python `str.lower()` (ASCII-range model via `Char.toLower`). -/
def lowerStr (s : List Char) : List Char := s.map Char.toLower

/-! ## The three fence-stripping implementations

`clean_json` transcribes `clean_json` from test_json_fix.py lines 5-15;
`planResponseClean` transcribes the inline cleanup in
`GeminiDocAgent.create_documentation_plan` (doc_generator.py lines
463-478); `screenshotResponseClean` transcribes the inline cleanup in
`GeminiDocAgent.identify_screenshot_targets` (doc_generator.py lines
660-668). -/

/-- `clean_json` from test_json_fix.py: strip; if the text starts with a
fence, drop through the first newline, and if the rstripped text ends
with a fence, cut at the last fence occurrence; strip again. -/
def clean_json (response : List Char) : List Char :=
  let r0 := pyStrip response
  if startsWithFence r0 then
    let r1 := match findNewline r0 with
      | some i => r0.drop (i + 1)
      | none => r0
    let r2 := if endsWithFence (pyRstrip r1) then
        pySliceTo r1 (rfindFence (pyRstrip r1))
      else r1
    pyStrip r2
  else pyStrip r0

/-- The markdown-fence cleanup inlined in `create_documentation_plan`
(doc_generator.py lines 463-478). -/
def planResponseClean (response : List Char) : List Char :=
  let r0 := pyStrip response
  if startsWithFence r0 then
    let r1 := match findNewline r0 with
      | some i => r0.drop (i + 1)
      | none => r0
    let r2 := if endsWithFence (pyRstrip r1) then
        pySliceTo r1 (rfindFence (pyRstrip r1))
      else r1
    pyStrip r2
  else pyStrip r0

/-- The markdown-fence cleanup inlined in `identify_screenshot_targets`
(doc_generator.py lines 660-668). -/
def screenshotResponseClean (response : List Char) : List Char :=
  let r0 := pyStrip response
  if startsWithFence r0 then
    let r1 := match findNewline r0 with
      | some i => r0.drop (i + 1)
      | none => r0
    let r2 := if endsWithFence (pyRstrip r1) then
        pySliceTo r1 (rfindFence (pyRstrip r1))
      else r1
    pyStrip r2
  else pyStrip r0

/-! ## Code-fragment extraction

Transcribes `GeminiDocAgent._extract_code_blocks` (doc_generator.py lines
598-622) and the way `generate_section_content` uses it (lines 591-596).
-/

/-- Python `content.split('\n')`. -/
def splitOnNewline : List Char → List (List Char)
  | [] => [[]]
  | c :: rest =>
    if c == '\n' then [] :: splitOnNewline rest
    else match splitOnNewline rest with
      | [] => [[c]]
      | l :: ls => (c :: l) :: ls

/-- Python `'\n'.join(lines)`. -/
def joinNewline : List (List Char) → List Char
  | [] => []
  | [l] => l
  | l :: ls => l ++ '\n' :: joinNewline ls

/-- The sentinel `CODE_BLOCK_START`. -/
def codeBlockStartMark : List Char := "CODE_BLOCK_START".toList

/-- The sentinel `CODE_BLOCK_END`. -/
def codeBlockEndMark : List Char := "CODE_BLOCK_END".toList

/-- The per-line state machine of `_extract_code_blocks`.  A line that
contains `CODE_BLOCK_START` or whose stripped form starts with a fence
sets `in_block` (both sub-branches of that `if` end in `continue`, so the
language-tag check has no further effect); otherwise a line containing
`CODE_BLOCK_END` — or, in the dead second disjunct, a bare fence while in
a block — flushes the current block; otherwise lines inside a block
accumulate. -/
def extractGo : List (List Char) → Bool → List (List Char) → List (List Char)
  | [], _, _ => []
  | line :: rest, inBlock, cur =>
    if strContains line codeBlockStartMark || startsWithFence (pyStrip line) then
      extractGo rest true cur
    else if strContains line codeBlockEndMark || (inBlock && pyStrip line == bt3) then
      if cur.isEmpty then extractGo rest false []
      else joinNewline cur :: extractGo rest false []
    else if inBlock then extractGo rest inBlock (cur ++ [line])
    else extractGo rest inBlock cur

/-- `GeminiDocAgent._extract_code_blocks` (doc_generator.py lines 598-622). -/
def extract_code_blocks (content : List Char) : List (List Char) :=
  extractGo (splitOnNewline content) false []

/-- The tail of `generate_section_content` (doc_generator.py lines
591-596): the section's code blocks are set from the returned text, and
the text itself is returned unchanged. -/
def generate_section_content_post (content : List Char) :
    List Char × List (List Char) :=
  (content, extract_code_blocks content)

/-! ## The sliding-window rate limiter

Transcribes `GeminiDocAgent._track_request` (doc_generator.py lines
215-240).  `time.time()` values are integers; `time.sleep` advances the
clock by exactly the requested amount. -/

/-- The eviction step: keep only timestamps newer than 60 seconds
(`[ts for ts in self.request_timestamps if current_time - ts < 60]`). -/
def evictOld (now : Int) (l : List Int) : List Int :=
  l.filter (fun ts => now - ts < 60)

/-- One call of `_track_request`: evict, then if the per-minute cap is
reached wait until the oldest tracked timestamp expires (re-evicting
afterwards), and finally record the admission timestamp.  Returns the new
timestamp list and the clock after the call; `none` models the
`IndexError` Python raises reading `request_timestamps[0]` from an empty
list (reachable only when the cap is zero). -/
def track_request (cap : Nat) (l : List Int) (now : Int) :
    Option (List Int × Int) :=
  let l1 := evictOld now l
  if cap ≤ l1.length then
    match l1 with
    | [] => none
    | oldest :: _ =>
      let wait : Int := 60 - (now - oldest) + 1
      if 0 < wait then
        let now2 := now + wait
        let l2 := evictOld now2 l1
        some (l2 ++ [now2], now2)
      else
        some (l1 ++ [now], now)
  else
    some (l1 ++ [now], now)

/-- A run of admission decisions.  Each list element is the nonnegative
time elapsed since the previous call returned; the function threads the
retained-timestamp list, the clock, and the accumulated list of all
admitted timestamps. -/
def runTrack (cap : Nat) :
    List Int → Int → List Int → List Nat → Option (List Int × Int × List Int)
  | l, now, adm, [] => some (l, now, adm)
  | l, now, adm, d :: ds =>
    match track_request cap l (now + (d : Int)) with
    | none => none
    | some (l', now') => runTrack cap l' now' (adm ++ [now']) ds

/-- The state invariant of the rate window: the retained list is exactly
the admitted timestamps newer than 60 seconds, admissions are
time-ordered and never in the future, and the retained list respects the
cap. -/
def WindowInv (cap : Nat) (l : List Int) (now : Int) (adm : List Int) : Prop :=
  l = adm.filter (fun ts => now - ts < 60) ∧
  adm.Pairwise (· ≤ ·) ∧
  (∀ ts ∈ adm, ts ≤ now) ∧
  l.length ≤ cap

/-! ## Retry loop with exponential backoff

Transcribes the retry loop of `GeminiDocAgent._make_request`
(doc_generator.py lines 313-350).  The underlying service call is
modelled by a list of per-attempt outcomes; the list has one entry per
configured attempt (`range(self.max_retries)`). -/

/-- One outcome of `self.model.generate_content`. -/
inductive AttemptResult where
  | ok (text : List Char)
  | err (msg : List Char)
deriving DecidableEq

/-- Error classification (doc_generator.py lines 325-328):
`'429' in error_str or 'quota' in error_str or 'rate limit' in error_str`
on the lowercased message. -/
def classify_rate_limit (e : List Char) : Bool :=
  strContains (lowerStr e) "429".toList ||
  strContains (lowerStr e) "quota".toList ||
  strContains (lowerStr e) "rate limit".toList

/-- Backoff computation (doc_generator.py lines 330-341): rate-limit-like
failures back off `base_backoff_delay * (2 ** retry_attempt)`; other
failures use the flat `base_backoff_delay`. -/
def backoff_delay (base : Nat) (isRateLimit : Bool) (attempt : Nat) : Nat :=
  if isRateLimit then base * 2 ^ attempt else base

/-- The retry loop, returning the result (`Except.error` models `raise`;
the payload `none` models `raise None` when the loop body never ran) and
the list of backoff delays slept.  A failure on the final attempt
re-raises the last exception; earlier failures sleep the computed backoff
and retry. -/
def attempt_loop (base : Nat) :
    List AttemptResult → Nat → Except (Option (List Char)) (List Char) × List Nat
  | [], _ => (Except.error none, [])
  | [o], _ =>
    match o with
    | .ok t => (Except.ok t, [])
    | .err e => (Except.error (some e), [])
  | o :: o2 :: rest, attempt =>
    match o with
    | .ok t => (Except.ok t, [])
    | .err e =>
      let d := backoff_delay base (classify_rate_limit e) attempt
      let r := attempt_loop base (o2 :: rest) (attempt + 1)
      (r.1, d :: r.2)

/-- `_make_request`'s retry section applied to the full attempt budget. -/
def make_request (base : Nat) (outcomes : List AttemptResult) :
    Except (Option (List Char)) (List Char) × List Nat :=
  attempt_loop base outcomes 0

/-- The text of the first successful attempt, if any. -/
def first_success : List AttemptResult → Option (List Char)
  | [] => none
  | .ok t :: _ => some t
  | .err _ :: rest => first_success rest

/-- The error messages of the failing attempts, in order. -/
def error_msgs : List AttemptResult → List (List Char)
  | [] => []
  | .ok _ :: rest => error_msgs rest
  | .err e :: rest => e :: error_msgs rest

/-! ## Plan parsing, shape repair, and fallback

Transcribes the parse/repair/fallback logic of
`GeminiDocAgent.create_documentation_plan` (doc_generator.py lines
481-552).  `json.loads` output is modelled as `Option Json` (`none` for a
`json.JSONDecodeError`).  Python raises `TypeError` for operations on
values of the wrong runtime type and `KeyError` for a missing dict key;
the `except` clause catches `json.JSONDecodeError` and `KeyError` only,
and the final `DocumentationPlan(...)` construction sits outside the
`try` block. -/

/-- A parsed JSON value. -/
inductive Json where
  | null
  | bool (b : Bool)
  | num (n : Int)
  | str (s : List Char)
  | arr (items : List Json)
  | obj (fields : List (List Char × Json))

/-- The Python exceptions relevant to this code path. -/
inductive PyErr where
  | typeError
  | keyError
deriving DecidableEq

/-- Dict key lookup (first binding wins; `json.loads` keeps keys unique). -/
def lookupKey : List (List Char × Json) → List Char → Option Json
  | [], _ => none
  | (k, v) :: rest, key => if k = key then some v else lookupKey rest key

/-- Python `key in dict`. -/
def hasKey (fs : List (List Char × Json)) (key : List Char) : Bool :=
  (lookupKey fs key).isSome

/-- Dict assignment `d[key] = v`: replace an existing binding or append. -/
def setKey : List (List Char × Json) → List Char → Json → List (List Char × Json)
  | [], key, v => [(key, v)]
  | (k, w) :: rest, key, v =>
    if k = key then (k, v) :: rest else (k, w) :: setKey rest key v

/-- Python `element == "key"` for a JSON value (cross-type comparisons are
`False`). -/
def jsonIsStr (x : Json) (key : List Char) : Bool :=
  match x with
  | .str s => s == key
  | _ => false

/-- Python `len(value)`: defined for lists, dicts and strings; `TypeError`
otherwise. -/
def pyLen : Json → Except PyErr Nat
  | .arr xs => .ok xs.length
  | .obj fs => .ok fs.length
  | .str s => .ok s.length
  | _ => .error .typeError

/-- Python `"key" in value`: key test for dicts, element test for lists,
substring test for strings; `TypeError` otherwise. -/
def pyIn (key : List Char) : Json → Except PyErr Bool
  | .arr xs => .ok (xs.any (fun x => jsonIsStr x key))
  | .obj fs => .ok (hasKey fs key)
  | .str s => .ok (strContains s key)
  | _ => .error .typeError

/-- Python `value["key"]`: `KeyError` for a dict missing the key,
`TypeError` for any non-dict. -/
def pyGetItem (key : List Char) : Json → Except PyErr Json
  | .obj fs =>
    match lookupKey fs key with
    | some v => .ok v
    | none => .error .keyError
  | _ => .error .typeError

/-- Python `value["key"] = v`: only dicts support string-subscript
assignment. -/
def pySetItem (key : List Char) (v : Json) : Json → Except PyErr Json
  | .obj fs => .ok (Json.obj (setKey fs key v))
  | _ => .error .typeError

/-- Python `str()`/f-string rendering of a JSON value (exact for the
scalar shapes; container renderings are abbreviated — no claim inspects
them). -/
def pyFormat : Json → List Char
  | .str s => s
  | .num n => (toString n).toList
  | .bool true => "True".toList
  | .bool false => "False".toList
  | .null => "None".toList
  | .arr _ => "[...]".toList
  | .obj _ => "[object]".toList

/-- One synonym repair: `if alt in j and key not in j: j[key] = j[alt]`
(doc_generator.py lines 495-512 pattern). -/
def renameField (alt key : List Char) (j : Json) : Except PyErr Json := do
  let ca ← pyIn alt j
  let cb ← pyIn key j
  if ca && !cb then
    let v ← pyGetItem alt j
    pySetItem key v j
  else
    pure j

/-- The body of the `try` block (doc_generator.py lines 482-523): unwrap a
single known wrapper key, apply the fixed synonym renames, then require
the two canonical top-level keys (raising `KeyError` otherwise, which the
handler turns into the fallback). -/
def plan_try_block (j0 : Json) : Except PyErr Json := do
  let n ← pyLen j0
  let j ←
    if n = 1 then do
      if (← pyIn "documentation_plan".toList j0) then
        pyGetItem "documentation_plan".toList j0
      else if (← pyIn "plan".toList j0) then
        pyGetItem "plan".toList j0
      else pure j0
    else pure j0
  let j ← renameField "planTitle".toList "title".toList j
  let j ← do
    let ca ← pyIn "title".toList j
    let cb ← pyIn "project_name".toList j
    if !ca && cb then
      let v ← pyGetItem "project_name".toList j
      pySetItem "title".toList (Json.str (pyFormat v ++ " Documentation".toList)) j
    else pure j
  let j ← renameField "documentationSections".toList "sections".toList j
  let j ← renameField "chapters".toList "sections".toList j
  let j ← renameField "content_sections".toList "sections".toList j
  let j ← renameField "documentation_sections".toList "sections".toList j
  let v1 ← pyIn "title".toList j
  let v2 ← pyIn "sections".toList j
  if !v1 || !v2 then Except.error .keyError else pure j

/-- The fallback plan dict (doc_generator.py lines 534-541). -/
def fallback_json (project_name : List Char) : Json :=
  Json.obj [
    ("title".toList, Json.str (project_name ++ " Documentation".toList)),
    ("sections".toList, Json.arr [
      Json.obj [("title".toList, Json.str "Overview".toList),
        ("level".toList, Json.num 1),
        ("needs_images".toList, Json.bool false),
        ("image_descriptions".toList, Json.arr [])],
      Json.obj [("title".toList, Json.str "Installation".toList),
        ("level".toList, Json.num 1),
        ("needs_images".toList, Json.bool false),
        ("image_descriptions".toList, Json.arr [])],
      Json.obj [("title".toList, Json.str "Usage".toList),
        ("level".toList, Json.num 1),
        ("needs_images".toList, Json.bool true),
        ("image_descriptions".toList, Json.arr [Json.str "example usage".toList])]])]

/-- The `try`/`except` region: a parse failure or a `KeyError` inside the
block yields the fallback dict; a `TypeError` is not caught and
propagates. -/
def plan_json_or_fallback (parsed : Option Json) (project_name : List Char) :
    Except PyErr Json :=
  match parsed with
  | none => .ok (fallback_json project_name)
  | some j =>
    match plan_try_block j with
    | .ok j' => .ok j'
    | .error .keyError => .ok (fallback_json project_name)
    | .error .typeError => .error .typeError

/-- Python iteration `for x in value`: lists yield elements, strings yield
single-character strings, dicts yield keys; `TypeError` otherwise. -/
def pyIter : Json → Except PyErr (List Json)
  | .arr xs => .ok xs
  | .str s => .ok (s.map (fun c => Json.str [c]))
  | .obj fs => .ok (fs.map (fun kv => Json.str kv.1))
  | _ => .error .typeError

/-- One section entry of the produced plan (the `DocumentSection` fields
set by the comprehension in doc_generator.py lines 545-551; image items
are (description, path) pairs with an initially empty path). -/
structure PlanSection where
  title : Json
  level : Json
  content : List Char
  images : List (Json × List Char)
  code_blocks : List (List Char)

/-- The produced `DocumentationPlan`. -/
structure PlanModel where
  title : Json
  sections : List PlanSection

/-- The per-section constructor inside the comprehension: `s["title"]` and
`s["level"]` raise for a malformed entry (this happens outside the `try`
block); `s.get("image_descriptions", [])` defaults to an empty list. -/
def build_section (s : Json) : Except PyErr PlanSection := do
  let t ← pyGetItem "title".toList s
  let lv ← pyGetItem "level".toList s
  let descsVal :=
    match s with
    | .obj fs => (lookupKey fs "image_descriptions".toList).getD (Json.arr [])
    | _ => Json.arr []
  let descs ← pyIter descsVal
  pure { title := t, level := lv, content := [],
         images := descs.map (fun d => (d, [])), code_blocks := [] }

/-- The `DocumentationPlan(...)` construction (doc_generator.py lines
543-552), evaluated outside the `try` block. -/
def build_plan (j : Json) : Except PyErr PlanModel := do
  let t ← pyGetItem "title".toList j
  let sectionsVal ← pyGetItem "sections".toList j
  let items ← pyIter sectionsVal
  let secs ← items.mapM build_section
  pure { title := t, sections := secs }

/-- The whole of `create_documentation_plan` after the service call and
fence cleanup: parse result in, `DocumentationPlan` out, uncaught
exceptions as errors. -/
def create_plan_from_parse (parsed : Option Json) (project_name : List Char) :
    Except PyErr PlanModel := do
  let j ← plan_json_or_fallback parsed project_name
  build_plan j

/-- The `DocumentationPlan` the fallback dict builds into. -/
def fallback_plan (project_name : List Char) : PlanModel :=
  { title := Json.str (project_name ++ " Documentation".toList),
    sections := [
      { title := Json.str "Overview".toList, level := Json.num 1,
        content := [], images := [], code_blocks := [] },
      { title := Json.str "Installation".toList, level := Json.num 1,
        content := [], images := [], code_blocks := [] },
      { title := Json.str "Usage".toList, level := Json.num 1,
        content := [], images := [(Json.str "example usage".toList, [])],
        code_blocks := [] } ] }

/-- A structurally valid top level whose section entry lacks `"title"`:
parse succeeds and the top-level key validation passes. -/
def malformed_section_response : Json :=
  Json.obj [("title".toList, Json.str ['X']),
    ("sections".toList, Json.arr [Json.obj [("level".toList, Json.num 1)]])]

/-! ## The budget-constrained scheduler

Transcribes `DocumentationGenerator.generate`'s content/screenshot loop
(doc_generator.py lines 1655-1698), `_should_capture_screenshot` (lines
1607-1623), and the diagram phase (lines 1701-1763).  Sections here carry
concrete string titles as produced by the plan.  External collaborators —
`generate_section_content`, `identify_screenshot_targets`, the screenshot
captures, `generate_diagram_code` and `render_diagram` — are oracle
functions; a capture/render oracle answering `none` models any falsy
Python result (`None` or an empty path), which the code treats
identically. -/

/-- One entry of `section.images`: `{"description": ..., "path": ...}`;
an empty path means unresolved. -/
structure ImageItem where
  description : List Char
  path : List Char
deriving DecidableEq

/-- One entry of `section.mermaid_diagrams`. -/
structure MermaidItem where
  description : List Char
  code : List Char
  path : List Char
deriving DecidableEq

/-- A `DocumentSection` as mutated by the generate pipeline. -/
structure DocSection where
  title : List Char
  level : Int
  content : List Char
  images : List ImageItem
  code_blocks : List (List Char)
  mermaid_diagrams : List MermaidItem
deriving DecidableEq

/-- One screenshot target returned by `identify_screenshot_targets`. -/
structure Target where
  target_type : List Char
  target_path : List Char
  instructions : List Char

/-- `DocumentationGenerator._should_capture_screenshot` (lines
1607-1623): any configured priority keyword contained in the lowercased
title. -/
def should_capture_screenshot (priority : List (List Char))
    (title : List Char) : Bool :=
  priority.any (fun kw => strContains (lowerStr title) kw)

/-- The per-target dispatch of lines 1681-1688: `code_file` and
`directory_structure` call their capture service, any other
`target_type` (e.g. `config_file`) leaves `path = None`. -/
def capture_target (codeFileCap : List Char → List Char → Option (List Char))
    (dirTreeCap : Option (List Char)) (t : Target) : Option (List Char) :=
  if t.target_type = "code_file".toList then
    codeFileCap t.target_path t.instructions
  else if t.target_type = "directory_structure".toList then dirTreeCap
  else none

/-- `section.images[j]['path'] = path`: `none` models the `IndexError`
Python would raise for an out-of-range index. -/
def set_image_path (imgs : List ImageItem) (j : Nat) (p : List Char) :
    Option (List ImageItem) :=
  match imgs.get? j with
  | none => none
  | some it => some (imgs.set j { description := it.description, path := p })

/-- The inner target loop of lines 1677-1692: targets are enumerated;
index `j` at or past `screenshots_to_capture` breaks; a truthy captured
path is written at index `j` and increments the counter. -/
def resolve_targets (capFn : Target → Option (List Char)) (toCapture : Nat) :
    Nat → List Target → List ImageItem → Nat → Option (List ImageItem × Nat)
  | _, [], imgs, c => some (imgs, c)
  | j, t :: ts, imgs, c =>
    if toCapture ≤ j then some (imgs, c)
    else
      match capFn t with
      | some p =>
        match set_image_path imgs j p with
        | none => none
        | some imgs' => resolve_targets capFn toCapture (j + 1) ts imgs' (c + 1)
      | none => resolve_targets capFn toCapture (j + 1) ts imgs c

/-- The screenshot block of the section loop (lines 1665-1696): runs only
when screenshots are enabled, the section requested images, the global
counter is below the cap, and a priority keyword matches; then resolves at
most `min(len(section.images), remaining)` targets. -/
def screenshot_step (enable : Bool) (maxS : Nat) (priority : List (List Char))
    (targets : List Target) (capFn : Target → Option (List Char))
    (s : DocSection) (count : Nat) : Option (DocSection × Nat) :=
  if enable && !s.images.isEmpty && decide (count < maxS) then
    if should_capture_screenshot priority s.title then
      let toCapture := min s.images.length (maxS - count)
      if 0 < toCapture then
        match resolve_targets capFn toCapture 0 targets s.images count with
        | none => none
        | some (imgs', c') => some ({ s with images := imgs' }, c')
      else some (s, count)
    else some (s, count)
  else some (s, count)

/-- Phase 3 (lines 1655-1698): per section in outline order, generate
content (which also extracts code blocks), then run the screenshot block;
`contentOf` and `targetsOf` are the service oracles by section index. -/
def phase3 (enable : Bool) (maxS : Nat) (priority : List (List Char))
    (contentOf : Nat → List Char) (targetsOf : Nat → List Target)
    (capFn : Target → Option (List Char)) :
    Nat → List DocSection → Nat → Option (List DocSection × Nat)
  | _, [], count => some ([], count)
  | i, s :: rest, count =>
    let content := contentOf i
    let s1 := { s with content := content,
                       code_blocks := extract_code_blocks content }
    match screenshot_step enable maxS priority (targetsOf i) capFn s1 count with
    | none => none
    | some (s2, count') =>
      match phase3 enable maxS priority contentOf targetsOf capFn
          (i + 1) rest count' with
      | none => none
      | some (rest', countF) => some (s2 :: rest', countF)

/-- The diagram priority keywords as configured at line 1707. -/
def diagram_priority_keywords : List (List Char) :=
  ["overview".toList, "architecture".toList, "design".toList,
   "components".toList]

/-- Modelled from the claim's words: the same keywords in the order the
claim and spec state them ("architecture/overview/design/components"). -/
def diagram_keywords_claimed : List (List Char) :=
  ["architecture".toList, "overview".toList, "design".toList,
   "components".toList]

/-- The `for priority_idx, keyword in enumerate(...)` scan with `break`
(lines 1713-1716): position of the first keyword contained in the
lowercased title. -/
def firstRankFrom (title : List Char) : Nat → List (List Char) → Option Nat
  | _, [] => none
  | i, kw :: rest =>
    if strContains (lowerStr title) kw then some i
    else firstRankFrom title (i + 1) rest

/-- Priority rank of a section title. -/
def first_keyword_rank (kws : List (List Char)) (title : List Char) :
    Option Nat :=
  firstRankFrom title 0 kws

/-- The candidate list of lines 1710-1716 as (rank, section index) pairs;
the code stores section references, which index pairs model. -/
def diagram_candidates (kws : List (List Char)) (secs : List DocSection) :
    List (Nat × Nat) :=
  secs.enum.filterMap (fun p =>
    (first_keyword_rank kws p.2.title).map (fun r => (r, p.1)))

/-- `diagram_candidates.sort(key=lambda x: x[0])` (line 1719): Python's
sort is stable, and every key is a position in the keyword list, so the
sorted result is exactly the concatenation of the equal-rank groups in
original order. -/
def sort_candidates (numKeywords : Nat) (cands : List (Nat × Nat)) :
    List (Nat × Nat) :=
  ((List.range numKeywords).map
    (fun r => cands.filter (fun c => c.1 = r))).flatten

/-- In-place update of one list element (`candidates` hold references to
the sections of `plan.sections`). -/
def listModify (f : α → α) : Nat → List α → List α
  | _, [] => []
  | 0, a :: t => f a :: t
  | n + 1, a :: t => a :: listModify f n t

/-- The successful-diagram mutation (lines 1747-1761): insert a resolved
media item at the front of `section.images` and append the diagram
record. -/
def add_diagram (code p : List Char) (s : DocSection) : DocSection :=
  { s with
    images := { description := "Architecture Diagram: ".toList ++ s.title,
                path := p } :: s.images,
    mermaid_diagrams := s.mermaid_diagrams ++
      [{ description := "System architecture diagram for ".toList ++ s.title,
         code := code, path := p }] }

/-- The diagram loop (lines 1722-1761): visit sorted candidates, breaking
as soon as the counter reaches the cap; a truthy generated code and a
truthy rendered path mutate the candidate's section and increment the
counter. -/
def diagram_loop (maxD : Nat) (genCode : Nat → Option (List Char))
    (render : Nat → List Char → Option (List Char)) :
    List (Nat × Nat) → List DocSection → Nat → List DocSection × Nat
  | [], secs, count => (secs, count)
  | (_, idx) :: rest, secs, count =>
    if maxD ≤ count then (secs, count)
    else
      match genCode idx with
      | some code =>
        match render idx code with
        | some p =>
          diagram_loop maxD genCode render rest
            (listModify (add_diagram code p) idx secs) (count + 1)
        | none => diagram_loop maxD genCode render rest secs count
      | none => diagram_loop maxD genCode render rest secs count

/-- Phase 3.4 (lines 1701-1763); `enableM` folds the
`ENABLE_MERMAID_DIAGRAMS` flag and `use_mermaid` together. -/
def diagram_phase (enableM : Bool) (maxD : Nat)
    (genCode : Nat → Option (List Char))
    (render : Nat → List Char → Option (List Char))
    (secs : List DocSection) (count : Nat) : List DocSection × Nat :=
  if enableM then
    diagram_loop maxD genCode render
      (sort_candidates diagram_priority_keywords.length
        (diagram_candidates diagram_priority_keywords secs)) secs count
  else (secs, count)

/-- Phases 3 and 3.4 of `generate`, with both counters starting at 0
(lines 1544-1545); returns the state after phase 3 and the state after
the diagram phase. -/
def run_pipeline (enable : Bool) (maxS : Nat) (priority : List (List Char))
    (contentOf : Nat → List Char) (targetsOf : Nat → List Target)
    (codeFileCap : List Char → List Char → Option (List Char))
    (dirTreeCap : Option (List Char)) (enableM : Bool) (maxD : Nat)
    (genCode : Nat → Option (List Char))
    (render : Nat → List Char → Option (List Char))
    (sections : List DocSection) :
    Option ((List DocSection × Nat) × (List DocSection × Nat)) :=
  match phase3 enable maxS priority contentOf targetsOf
      (capture_target codeFileCap dirTreeCap) 0 sections 0 with
  | none => none
  | some (secs1, sc) =>
    some ((secs1, sc), diagram_phase enableM maxD genCode render secs1 0)

/-- Number of media items of a section with a resolved (truthy) path. -/
def resolvedImages (s : DocSection) : Nat :=
  s.images.countP (fun im => !im.path.isEmpty)

/-- Total resolved media items across sections. -/
def totalResolved (secs : List DocSection) : Nat :=
  (secs.map resolvedImages).sum

/-- Total diagram records across sections. -/
def totalMermaid (secs : List DocSection) : Nat :=
  (secs.map (fun s => s.mermaid_diagrams.length)).sum

/-- A section titled Architecture, as the outline would produce it. -/
def sectionArchitecture : DocSection :=
  { title := "Architecture".toList, level := 1, content := [], images := [],
    code_blocks := [], mermaid_diagrams := [] }

/-- A section titled Overview, as the outline would produce it. -/
def sectionOverview : DocSection :=
  { title := "Overview".toList, level := 1, content := [], images := [],
    code_blocks := [], mermaid_diagrams := [] }

example : clean_json ("```json".toList ++ '\n' :: "[1]".toList ++ '\n' :: bt3) = "[1]".toList := by decide

example : clean_json (bt3 ++ bt3) = bt3 := by decide

example : clean_json (clean_json (bt3 ++ bt3)) = [] := by decide

theorem dropWhile_idem (p : α → Bool) (l : List α) :
    (l.dropWhile p).dropWhile p = l.dropWhile p := by
  induction l with
  | nil => rfl
  | cons a t ih =>
    by_cases h : p a
    · simp [List.dropWhile_cons, h, ih]
    · simp [List.dropWhile_cons, h]

theorem pyLstrip_idem (s : List Char) : pyLstrip (pyLstrip s) = pyLstrip s :=
  dropWhile_idem pyIsSpace s

theorem pyRstrip_idem (s : List Char) : pyRstrip (pyRstrip s) = pyRstrip s := by
  simp [pyRstrip, dropWhile_idem]

theorem pyRstrip_cons (a : Char) (t : List Char) :
    pyRstrip (a :: t) =
      if pyRstrip t = [] then (if pyIsSpace a then [] else [a])
      else a :: pyRstrip t := by
  have hrev : pyRstrip t = [] ↔ (t.reverse.dropWhile pyIsSpace) = [] := by
    simp [pyRstrip]
  by_cases h : pyRstrip t = []
  · have h' : (t.reverse.dropWhile pyIsSpace) = [] := hrev.mp h
    by_cases ha : pyIsSpace a <;>
      simp [pyRstrip, List.reverse_cons, List.dropWhile_append, h', h, ha]
  · have h' : ¬ (t.reverse.dropWhile pyIsSpace) = [] := fun hc => h (hrev.mpr hc)
    simp [pyRstrip, List.reverse_cons, List.dropWhile_append, h', h,
      List.isEmpty_iff]

theorem pyLstrip_pyRstrip_comm (l : List Char) :
    pyRstrip (pyLstrip l) = pyLstrip (pyRstrip l) := by
  induction l with
  | nil => rfl
  | cons a t ih =>
    by_cases ha : pyIsSpace a
    · have hl : pyLstrip (a :: t) = pyLstrip t := by
        simp [pyLstrip, List.dropWhile_cons, ha]
      rw [hl, ih, pyRstrip_cons]
      by_cases h : pyRstrip t = []
      · simp [h, ha, pyLstrip]
      · simp [h, ha, pyLstrip, List.dropWhile_cons]
    · have hl : pyLstrip (a :: t) = a :: t := by
        simp [pyLstrip, List.dropWhile_cons, ha]
      rw [hl, pyRstrip_cons]
      by_cases h : pyRstrip t = []
      · simp [h, ha, pyLstrip, List.dropWhile_cons]
      · simp [h, ha, pyLstrip, List.dropWhile_cons]

theorem pyStrip_idem (s : List Char) : pyStrip (pyStrip s) = pyStrip s := by
  show pyLstrip (pyRstrip (pyLstrip (pyRstrip s))) = pyLstrip (pyRstrip s)
  rw [pyLstrip_pyRstrip_comm, pyLstrip_idem, pyRstrip_idem]

theorem clean_json_stripped (s : List Char) :
    pyStrip (clean_json s) = clean_json s := by
  unfold clean_json
  by_cases h : startsWithFence (pyStrip s) <;> simp [h, pyStrip_idem]

theorem clean_json_unfenced (s : List Char)
    (h : startsWithFence (pyStrip s) = false) : clean_json s = pyStrip s := by
  unfold clean_json
  simp [h, pyStrip_idem]

example :
    extract_code_blocks ("CODE_BLOCK_START".toList ++ '\n' :: "x = 1".toList
      ++ '\n' :: "CODE_BLOCK_END".toList) = ["x = 1".toList] := by decide

example :
    extract_code_blocks (bt3 ++ '\n' :: "x = 1".toList ++ '\n' :: bt3) = [] := by
  decide

example :
    runTrack 2 [] 0 [] [0, 0, 0] = some ([61], 61, [0, 0, 61]) := by
  decide

theorem evictOld_filter (now n : Int) (hle : now ≤ n) (adm : List Int) :
    evictOld n (adm.filter (fun ts => now - ts < 60)) =
      adm.filter (fun ts => n - ts < 60) := by
  unfold evictOld
  rw [List.filter_filter]
  apply List.filter_congr
  intro ts _
  by_cases hcase : n - ts < 60
  · have h2 : now - ts < 60 := by omega
    simp [hcase, h2]
  · simp [hcase]

theorem track_request_full_eq (cap : Nat) (l : List Int) (now oldest : Int)
    (rest : List Int) (hcons : evictOld now l = oldest :: rest)
    (hfull : cap ≤ (oldest :: rest).length)
    (hwait : (0 : Int) < 60 - (now - oldest) + 1) :
    track_request cap l now =
      some (evictOld (now + (60 - (now - oldest) + 1)) (oldest :: rest)
          ++ [now + (60 - (now - oldest) + 1)],
        now + (60 - (now - oldest) + 1)) := by
  simp only [track_request, hcons]
  rw [if_pos hfull, if_pos hwait]

theorem track_request_notfull_eq (cap : Nat) (l : List Int) (now : Int)
    (hnotfull : ¬ cap ≤ (evictOld now l).length) :
    track_request cap l now = some (evictOld now l ++ [now], now) := by
  simp only [track_request]
  rw [if_neg hnotfull]

theorem track_request_step (cap : Nat) (hcap : 1 ≤ cap) (l : List Int)
    (now : Int) (adm : List Int) (h : WindowInv cap l now adm) (d : Nat) :
    ∃ l' now', track_request cap l (now + (d : Int)) = some (l', now') ∧
      now ≤ now' ∧ WindowInv cap l' now' (adm ++ [now']) := by
  obtain ⟨hfilter, hsorted, hpast, hlen⟩ := h
  set n : Int := now + (d : Int) with hn
  have hnow_n : now ≤ n := by omega
  have hl1 : evictOld n l = adm.filter (fun ts => n - ts < 60) := by
    rw [hfilter]; exact evictOld_filter now n hnow_n adm
  have hl1len : (evictOld n l).length ≤ cap :=
    le_trans (List.length_filter_le _ l) hlen
  by_cases hfull : cap ≤ (evictOld n l).length
  · -- window full: the code waits until the oldest admission expires
    have hlen_eq : (evictOld n l).length = cap := le_antisymm hl1len hfull
    have hne : evictOld n l ≠ [] := by
      intro hc
      rw [hc] at hlen_eq
      simp at hlen_eq
      omega
    obtain ⟨oldest, rest, hcons⟩ := List.exists_cons_of_ne_nil hne
    have holdmem : oldest ∈ evictOld n l := by
      rw [hcons]; exact List.mem_cons_self _ _
    have holdfresh : n - oldest < 60 := by
      rw [hl1] at holdmem
      have := (List.mem_filter.mp holdmem).2
      simpa using this
    have holdadm : oldest ∈ adm := by
      rw [hl1] at holdmem
      exact (List.mem_filter.mp holdmem).1
    have hwait : (0 : Int) < 60 - (n - oldest) + 1 := by omega
    set now2 : Int := n + (60 - (n - oldest) + 1) with hnow2
    have hnow2_eq : now2 = oldest + 61 := by omega
    have hn_now2 : n ≤ now2 := by omega
    have hl2 : evictOld now2 (oldest :: rest) =
        adm.filter (fun ts => now2 - ts < 60) := by
      rw [← hcons, hfilter, evictOld_filter now n hnow_n adm,
        evictOld_filter n now2 hn_now2 adm]
    have hl2len : (evictOld now2 (oldest :: rest)).length ≤ cap - 1 := by
      have hcold : ¬ (now2 - oldest < 60) := by omega
      have hdrop : evictOld now2 (oldest :: rest) =
          List.filter (fun ts => decide (now2 - ts < 60)) rest := by
        simp [evictOld, List.filter_cons, hcold]
      rw [hdrop]
      have hrest : rest.length = cap - 1 := by
        rw [hcons] at hlen_eq
        simp at hlen_eq
        omega
      calc (List.filter (fun ts => decide (now2 - ts < 60)) rest).length
          ≤ rest.length := List.length_filter_le _ _
        _ = cap - 1 := hrest
    have hfull' : cap ≤ (oldest :: rest).length := by rw [← hcons]; exact hfull
    refine ⟨evictOld now2 (oldest :: rest) ++ [now2], now2, ?_, ?_, ?_, ?_, ?_, ?_⟩
    · exact track_request_full_eq cap l n oldest rest hcons hfull' hwait
    · omega
    · -- retained = admitted ∩ window
      rw [List.filter_append, hl2]
      have : List.filter (fun ts => decide (now2 - ts < 60)) [now2] = [now2] := by
        simp
      rw [this]
    · -- admissions stay sorted
      rw [List.pairwise_append]
      refine ⟨hsorted, by simp, ?_⟩
      intro x hx y hy
      simp at hy
      subst hy
      have := hpast x hx
      omega
    · -- admissions never in the future
      intro ts hts
      rcases List.mem_append.mp hts with hl | hr
      · have := hpast ts hl; omega
      · simp at hr; omega
    · rw [List.length_append]
      simp
      omega
  · -- window not full: admit immediately
    refine ⟨evictOld n l ++ [n], n, ?_, ?_, ?_, ?_, ?_, ?_⟩
    · exact track_request_notfull_eq cap l n hfull
    · omega
    · rw [List.filter_append, hl1]
      have : List.filter (fun ts => decide (n - ts < 60)) [n] = [n] := by simp
      rw [this]
    · rw [List.pairwise_append]
      refine ⟨hsorted, by simp, ?_⟩
      intro x hx y hy
      simp at hy
      subst hy
      have := hpast x hx
      omega
    · intro ts hts
      rcases List.mem_append.mp hts with hl | hr
      · have := hpast ts hl; omega
      · simp at hr; omega
    · rw [List.length_append]
      simp
      omega

theorem runTrack_inv_aux (cap : Nat) (hcap : 1 ≤ cap) :
    ∀ (ds : List Nat) (l : List Int) (now : Int) (adm : List Int),
      WindowInv cap l now adm →
      ∃ l' now' adm', runTrack cap l now adm ds = some (l', now', adm') ∧
        now ≤ now' ∧ WindowInv cap l' now' adm' := by
  intro ds
  induction ds with
  | nil =>
    intro l now adm h
    exact ⟨l, now, adm, rfl, le_refl _, h⟩
  | cons d ds ih =>
    intro l now adm h
    obtain ⟨l1, now1, hstep, hle1, hinv1⟩ :=
      track_request_step cap hcap l now adm h d
    obtain ⟨l', now', adm', hrun, hle2, hinv2⟩ :=
      ih l1 now1 (adm ++ [now1]) hinv1
    refine ⟨l', now', adm', ?_, le_trans hle1 hle2, hinv2⟩
    unfold runTrack
    rw [hstep]
    exact hrun

/-- C1: sliding-window rate-limit invariant.  For every sequence of
admission decisions of `_track_request` (arbitrary nonnegative elapsed
times between calls), the run never hits the empty-window `IndexError`,
after each admission no retained timestamp is older than 60 seconds and
the retained list's length is at most the per-minute cap, and the number
of admitted timestamps inside any trailing 60-second window (at or after
the final admission) never exceeds the cap. -/
theorem sliding_window_invariant (cap : Nat) (hcap : 1 ≤ cap) (start : Int)
    (ds : List Nat) :
    ∃ l' now' adm', runTrack cap [] start [] ds = some (l', now', adm') ∧
      (∀ ts ∈ l', now' - ts < 60) ∧
      l'.length ≤ cap ∧
      ∀ t : Int, now' ≤ t →
        (adm'.filter (fun ts => t - ts < 60)).length ≤ cap := by
  have hinv0 : WindowInv cap [] start [] := ⟨by simp, by simp, by simp, by simp⟩
  obtain ⟨l', now', adm', hrun, _, hfil, hsort, hpast, hlen⟩ :=
    runTrack_inv_aux cap hcap ds [] start [] hinv0
  refine ⟨l', now', adm', hrun, ?_, hlen, ?_⟩
  · intro ts hts
    rw [hfil] at hts
    have := (List.mem_filter.mp hts).2
    simpa using this
  · intro t ht
    have hsub : List.Sublist (adm'.filter (fun ts => decide (t - ts < 60)))
        (adm'.filter (fun ts => decide (now' - ts < 60))) := by
      apply List.monotone_filter_right
      intro a ha
      simp at ha ⊢
      omega
    have hlength := hsub.length_le
    rw [← hfil] at hlength
    omega

/-- Witness for C1 at cap 1 and two back-to-back calls. -/
theorem sliding_window_invariant_witness :
    1 ≤ 1 ∧
    ∃ l' now' adm', runTrack 1 [] 0 [] [0, 0] = some (l', now', adm') ∧
      (∀ ts ∈ l', now' - ts < 60) ∧
      l'.length ≤ 1 ∧
      ∀ t : Int, now' ≤ t →
        (adm'.filter (fun ts => t - ts < 60)).length ≤ 1 :=
  ⟨by decide, sliding_window_invariant 1 (by decide) 0 [0, 0]⟩

theorem error_msgs_length_of_no_success :
    ∀ os : List AttemptResult, first_success os = none →
      (error_msgs os).length = os.length := by
  intro os
  induction os with
  | nil => intro _; rfl
  | cons o rest ih =>
    intro h
    cases o with
    | ok t => simp [first_success] at h
    | err e =>
      simp [first_success] at h
      simp [error_msgs, ih h]

theorem attempt_loop_result (base : Nat) :
    ∀ (os : List AttemptResult) (a : Nat),
      (attempt_loop base os a).1 =
        match first_success os with
        | some t => Except.ok t
        | none => Except.error ((error_msgs os).getLast?) := by
  intro os
  induction os with
  | nil => intro a; rfl
  | cons o rest ih =>
    intro a
    cases o with
    | ok t =>
      cases rest with
      | nil => rfl
      | cons o2 tail => rfl
    | err e =>
      cases rest with
      | nil => rfl
      | cons o2 tail =>
        show (attempt_loop base (o2 :: tail) (a + 1)).1 = _
        rw [ih (a + 1)]
        simp only [first_success, error_msgs]
        cases hfs : first_success (o2 :: tail) with
        | some t => simp
        | none =>
          have hlen := error_msgs_length_of_no_success (o2 :: tail) hfs
          have hne : error_msgs (o2 :: tail) ≠ [] := by
            intro hc
            rw [hc] at hlen
            simp at hlen
          obtain ⟨m, ms, hm⟩ := List.exists_cons_of_ne_nil hne
          simp [hm, List.getLast?_cons_cons]

theorem attempt_loop_delays (base : Nat) :
    ∀ (msgs : List (List Char)) (a : Nat),
      (attempt_loop base (msgs.map AttemptResult.err) a).2 =
        (List.range (msgs.length - 1)).map
          (fun i => backoff_delay base (classify_rate_limit (msgs.getD i [])) (a + i)) := by
  intro msgs
  induction msgs with
  | nil => intro a; rfl
  | cons e rest ih =>
    intro a
    cases rest with
    | nil => rfl
    | cons e2 tail =>
      show backoff_delay base (classify_rate_limit e) a ::
          (attempt_loop base ((e2 :: tail).map AttemptResult.err) (a + 1)).2 = _
      rw [ih (a + 1)]
      simp only [List.length_cons, Nat.add_sub_cancel, List.range_succ_eq_map,
        List.map_cons, List.map_map]
      refine congrArg₂ _ (by simp) ?_
      apply List.map_congr_left
      intro i _
      have harith : a + 1 + i = a + (i + 1) := by omega
      simp [List.getD, harith]

/-- C4: backoff schedule.  For attempts classified rate-limit-like the
delay is `base_backoff * 2 ^ attempt`, so consecutive rate-limit-classified
attempts double the delay; other failures always get the flat
`base_backoff`; and in a run of the retry loop every non-final failing
attempt `j` sleeps exactly the delay so computed for its classification. -/
theorem backoff_schedule (base i : Nat) (msgs : List (List Char)) :
    backoff_delay base true i = base * 2 ^ i ∧
    backoff_delay base true (i + 1) = 2 * backoff_delay base true i ∧
    backoff_delay base false i = base ∧
    (make_request base (msgs.map AttemptResult.err)).2 =
      (List.range (msgs.length - 1)).map
        (fun j => backoff_delay base (classify_rate_limit (msgs.getD j [])) j) := by
  refine ⟨rfl, ?_, rfl, ?_⟩
  · simp only [backoff_delay, if_pos]
    ring
  · have h := attempt_loop_delays base msgs 0
    simpa using h

/-- C5: retry exhaustion semantics.  The retry loop returns the text of
the first successful attempt — failures before it are invisible to the
caller — and when every attempt fails it raises exactly the last
attempt's error; in particular an error escapes only when no attempt
succeeded (the exhaustion path). -/
theorem retry_exhaustion_semantics (base : Nat) (os : List AttemptResult) :
    (make_request base os).1 =
      match first_success os with
      | some t => Except.ok t
      | none => Except.error ((error_msgs os).getLast?) :=
  attempt_loop_result base os 0

/-- C6 concerns `_extract_code_blocks`: a fragment delimited by plain
triple-backtick fences is never extracted, because the closing fence line
matches the opening-fence condition first (the `elif` branch's bare-fence
disjunct is unreachable), refuting the fenced half of the claim; the
sentinel-delimited half works, and the section text is returned and
stored unchanged.  This theorem evaluates the code at the failing
input. -/
theorem code_fence_extraction_behavior :
    extract_code_blocks (bt3 ++ '\n' :: "x = 1".toList ++ '\n' :: bt3) = [] ∧
    extract_code_blocks ("CODE_BLOCK_START".toList ++ '\n' :: "x = 1".toList
      ++ '\n' :: "CODE_BLOCK_END".toList) = ["x = 1".toList] ∧
    ∀ content : List Char, (generate_section_content_post content).1 = content :=
  ⟨by decide, by decide, fun _ => rfl⟩

/-- C8 counterexample: stripping is not idempotent on all inputs.  On six
backticks a first application yields three backticks, a second yields the
empty text. -/
theorem fence_strip_not_idempotent :
    clean_json (clean_json (bt3 ++ bt3)) ≠ clean_json (bt3 ++ bt3) := by decide

/-- C8 amended: stripping a text that does not begin with a
triple-backtick fence is a no-op up to whitespace trimming, and stripping
twice equals stripping once whenever the first application's result does
not itself begin with a fence. -/
theorem fence_strip_conditional_idempotence (s : List Char) :
    (startsWithFence (pyStrip s) = false → clean_json s = pyStrip s) ∧
    (startsWithFence (clean_json s) = false →
      clean_json (clean_json s) = clean_json s) := by
  constructor
  · exact clean_json_unfenced s
  · intro h
    have h2 : startsWithFence (pyStrip (clean_json s)) = false := by
      rw [clean_json_stripped]; exact h
    rw [clean_json_unfenced (clean_json s) h2, clean_json_stripped]

/-- Witness for C8's amended statement at a concrete unfenced input. -/
theorem fence_strip_conditional_idempotence_witness :
    clean_json ['x'] = pyStrip ['x'] ∧
    clean_json (clean_json ['x']) = clean_json ['x'] :=
  ⟨(fence_strip_conditional_idempotence ['x']).1 (by decide),
   (fence_strip_conditional_idempotence ['x']).2 (by decide)⟩

/-- C9: the standalone `clean_json` of test_json_fix.py, the inline
cleanup in `create_documentation_plan`, and the inline cleanup in
`identify_screenshot_targets` compute the same function. -/
theorem clean_json_implementations_agree (s : List Char) :
    planResponseClean s = clean_json s ∧
    screenshotResponseClean s = clean_json s :=
  ⟨rfl, rfl⟩

example : create_plan_from_parse none ['P'] = Except.ok (fallback_plan ['P']) := rfl

example : create_plan_from_parse (some malformed_section_response) ['P'] =
    Except.error PyErr.keyError := rfl

theorem countP_set_le (pred : ImageItem → Bool) (imgs : List ImageItem)
    (j : Nat) (it : ImageItem) :
    (imgs.set j it).countP pred ≤ imgs.countP pred + 1 := by
  induction imgs generalizing j with
  | nil => simp
  | cons a t ih =>
    cases j with
    | zero =>
      simp only [List.set_cons_zero, List.countP_cons]
      have hif : (if pred it then 1 else 0) ≤ (if pred a then 1 else 0) + 1 := by
        by_cases h1 : pred it <;> by_cases h2 : pred a <;> simp [h1, h2]
      omega
    | succ m =>
      simp only [List.set_cons_succ, List.countP_cons]
      have := ih m
      by_cases h2 : pred a <;> simp [h2] <;> omega

theorem resolve_targets_spec (capFn : Target → Option (List Char))
    (toCapture : Nat) :
    ∀ (ts : List Target) (j : Nat) (imgs : List ImageItem) (c : Nat),
      toCapture ≤ imgs.length →
      ∃ imgs' c',
        resolve_targets capFn toCapture j ts imgs c = some (imgs', c') ∧
        imgs'.length = imgs.length ∧
        c ≤ c' ∧ c' ≤ c + (toCapture - j) ∧
        imgs'.countP (fun im => !im.path.isEmpty) + c ≤
          imgs.countP (fun im => !im.path.isEmpty) + c' := by
  intro ts
  induction ts with
  | nil =>
    intro j imgs c _
    exact ⟨imgs, c, rfl, rfl, le_refl c, by omega, by omega⟩
  | cons t ts ih =>
    intro j imgs c h
    by_cases hj : toCapture ≤ j
    · refine ⟨imgs, c, ?_, rfl, le_refl c, by omega, by omega⟩
      unfold resolve_targets
      rw [if_pos hj]
    · cases hcap : capFn t with
      | none =>
        obtain ⟨imgs', c', hrec, hlen, hc1, hc2, hres⟩ := ih (j + 1) imgs c h
        refine ⟨imgs', c', ?_, hlen, hc1, by omega, hres⟩
        unfold resolve_targets
        rw [if_neg hj]
        simp only [hcap]
        exact hrec
      | some p =>
        have hjlen : j < imgs.length := lt_of_lt_of_le (by omega) h
        have hget : imgs.get? j = some (imgs.get ⟨j, hjlen⟩) :=
          List.get?_eq_get hjlen
        have hset : set_image_path imgs j p =
            some (imgs.set j { description := (imgs.get ⟨j, hjlen⟩).description,
                               path := p }) := by
          unfold set_image_path
          rw [hget]
        have hlen2 : toCapture ≤ (imgs.set j
            { description := (imgs.get ⟨j, hjlen⟩).description,
              path := p }).length := by
          rw [List.length_set]; exact h
        obtain ⟨imgs', c', hrec, hlen, hc1, hc2, hres⟩ :=
          ih (j + 1) _ (c + 1) hlen2
        refine ⟨imgs', c', ?_, ?_, by omega, by omega, ?_⟩
        · unfold resolve_targets
          rw [if_neg hj]
          simp only [hcap, hset]
          exact hrec
        · rw [hlen, List.length_set]
        · have hone := countP_set_le (fun im => !im.path.isEmpty) imgs j
            { description := (imgs.get ⟨j, hjlen⟩).description, path := p }
          omega

theorem screenshot_step_skip (enable : Bool) (maxS : Nat)
    (priority : List (List Char)) (targets : List Target)
    (capFn : Target → Option (List Char)) (s : DocSection) (count : Nat)
    (h : maxS ≤ count) :
    screenshot_step enable maxS priority targets capFn s count =
      some (s, count) := by
  unfold screenshot_step
  have hdec : decide (count < maxS) = false := by
    simp
    omega
  simp [hdec]

theorem screenshot_step_spec (enable : Bool) (maxS : Nat)
    (priority : List (List Char)) (targets : List Target)
    (capFn : Target → Option (List Char)) (s : DocSection) (count : Nat)
    (hcount : count ≤ maxS) :
    ∃ s' c', screenshot_step enable maxS priority targets capFn s count =
        some (s', c') ∧
      count ≤ c' ∧ c' ≤ maxS ∧
      resolvedImages s' + count ≤ resolvedImages s + c' ∧
      s'.mermaid_diagrams = s.mermaid_diagrams ∧
      s'.title = s.title := by
  unfold screenshot_step
  by_cases h1 : (enable && !s.images.isEmpty && decide (count < maxS)) = true
  · rw [if_pos h1]
    by_cases h2 : should_capture_screenshot priority s.title = true
    · rw [if_pos h2]
      by_cases h3 : 0 < min s.images.length (maxS - count)
      · rw [if_pos h3]
        obtain ⟨imgs', c', hrec, hlen, hc1, hc2, hres⟩ :=
          resolve_targets_spec capFn (min s.images.length (maxS - count))
            targets 0 s.images count (min_le_left _ _)
        have hcnt : count < maxS := by
          have := h1
          simp at this
          exact this.2
        refine ⟨{ s with images := imgs' }, c', ?_, hc1, ?_, ?_, rfl, rfl⟩
        · simp only [hrec]
        · have hmin : min s.images.length (maxS - count) ≤ maxS - count :=
            min_le_right _ _
          omega
        · exact hres
      · rw [if_neg h3]
        exact ⟨s, count, rfl, le_refl _, hcount, by omega, rfl, rfl⟩
    · rw [if_neg h2]
      exact ⟨s, count, rfl, le_refl _, hcount, by omega, rfl, rfl⟩
  · rw [if_neg h1]
    exact ⟨s, count, rfl, le_refl _, hcount, by omega, rfl, rfl⟩

theorem totalResolved_cons (s : DocSection) (l : List DocSection) :
    totalResolved (s :: l) = resolvedImages s + totalResolved l := by
  simp [totalResolved]

theorem totalMermaid_cons (s : DocSection) (l : List DocSection) :
    totalMermaid (s :: l) = s.mermaid_diagrams.length + totalMermaid l := by
  simp [totalMermaid]

theorem phase3_spec (enable : Bool) (maxS : Nat) (priority : List (List Char))
    (contentOf : Nat → List Char) (targetsOf : Nat → List Target)
    (capFn : Target → Option (List Char)) :
    ∀ (sections : List DocSection) (i count : Nat), count ≤ maxS →
      ∃ secs' c', phase3 enable maxS priority contentOf targetsOf capFn
          i sections count = some (secs', c') ∧
        count ≤ c' ∧ c' ≤ maxS ∧
        totalResolved secs' + count ≤ totalResolved sections + c' ∧
        totalMermaid secs' = totalMermaid sections := by
  intro sections
  induction sections with
  | nil =>
    intro i count h
    exact ⟨[], count, rfl, le_refl _, h, by omega, rfl⟩
  | cons s rest ih =>
    intro i count h
    obtain ⟨s2, c2, hstep, hc1, hc2, hres, hmer, _⟩ :=
      screenshot_step_spec enable maxS priority (targetsOf i) capFn
        { s with content := contentOf i,
                 code_blocks := extract_code_blocks (contentOf i) } count h
    obtain ⟨rest', cF, hrec, hd1, hd2, hdres, hdmer⟩ := ih (i + 1) c2 hc2
    have hres' : resolvedImages s2 + count ≤ resolvedImages s + c2 := hres
    have hmer' : s2.mermaid_diagrams = s.mermaid_diagrams := hmer
    refine ⟨s2 :: rest', cF, ?_, le_trans hc1 hd1, hd2, ?_, ?_⟩
    · simp only [phase3]
      rw [hstep]
      simp only [hrec]
    · rw [totalResolved_cons, totalResolved_cons]
      omega
    · rw [totalMermaid_cons, totalMermaid_cons, hmer', hdmer]

theorem sum_map_listModify_le (g : α → Nat) (f : α → α)
    (hf : ∀ a, g (f a) ≤ g a + 1) :
    ∀ (l : List α) (idx : Nat),
      ((listModify f idx l).map g).sum ≤ (l.map g).sum + 1 := by
  intro l
  induction l with
  | nil => intro idx; simp [listModify]
  | cons a t ih =>
    intro idx
    cases idx with
    | zero =>
      simp only [listModify, List.map_cons, List.sum_cons]
      have := hf a
      omega
    | succ m =>
      simp only [listModify, List.map_cons, List.sum_cons]
      have := ih m
      omega

theorem diagram_loop_skip (maxD : Nat) (genCode : Nat → Option (List Char))
    (render : Nat → List Char → Option (List Char))
    (cands : List (Nat × Nat)) (secs : List DocSection) (count : Nat)
    (h : maxD ≤ count) :
    diagram_loop maxD genCode render cands secs count = (secs, count) := by
  cases cands with
  | nil => rfl
  | cons c rest =>
    obtain ⟨r, idx⟩ := c
    unfold diagram_loop
    rw [if_pos h]

theorem diagram_loop_cons (maxD : Nat) (genCode : Nat → Option (List Char))
    (render : Nat → List Char → Option (List Char)) (r idx : Nat)
    (rest : List (Nat × Nat)) (secs : List DocSection) (count : Nat) :
    diagram_loop maxD genCode render ((r, idx) :: rest) secs count =
      if maxD ≤ count then (secs, count)
      else
        match genCode idx with
        | some code =>
          match render idx code with
          | some p => diagram_loop maxD genCode render rest
              (listModify (add_diagram code p) idx secs) (count + 1)
          | none => diagram_loop maxD genCode render rest secs count
        | none => diagram_loop maxD genCode render rest secs count := rfl

theorem diagram_loop_spec (maxD : Nat) (genCode : Nat → Option (List Char))
    (render : Nat → List Char → Option (List Char)) :
    ∀ (cands : List (Nat × Nat)) (secs : List DocSection) (count : Nat),
      count ≤ maxD →
      count ≤ (diagram_loop maxD genCode render cands secs count).2 ∧
      (diagram_loop maxD genCode render cands secs count).2 ≤ maxD ∧
      totalMermaid (diagram_loop maxD genCode render cands secs count).1
          + count ≤
        totalMermaid secs +
          (diagram_loop maxD genCode render cands secs count).2 := by
  intro cands
  induction cands with
  | nil =>
    intro secs count h
    refine ⟨le_refl _, h, ?_⟩
    simp [diagram_loop]
  | cons c rest ih =>
    intro secs count h
    obtain ⟨r, idx⟩ := c
    by_cases hfull : maxD ≤ count
    · rw [diagram_loop_cons, if_pos hfull]
      exact ⟨le_refl _, h, by simp⟩
    · rw [diagram_loop_cons, if_neg hfull]
      cases hg : genCode idx with
      | none =>
        simp only [hg]
        exact ih secs count h
      | some code =>
        simp only [hg]
        cases hr : render idx code with
        | none =>
          simp only [hr]
          exact ih secs count h
        | some p =>
          simp only [hr]
          have hmod : totalMermaid (listModify (add_diagram code p) idx secs) ≤
              totalMermaid secs + 1 := by
            apply sum_map_listModify_le
            intro a
            simp [add_diagram]
          obtain ⟨k1, k2, k3⟩ :=
            ih (listModify (add_diagram code p) idx secs) (count + 1) (by omega)
          exact ⟨by omega, k2, by omega⟩

theorem diagram_phase_spec (enableM : Bool) (maxD : Nat)
    (genCode : Nat → Option (List Char))
    (render : Nat → List Char → Option (List Char))
    (secs : List DocSection) :
    (diagram_phase enableM maxD genCode render secs 0).2 ≤ maxD ∧
    totalMermaid (diagram_phase enableM maxD genCode render secs 0).1 ≤
      totalMermaid secs +
        (diagram_phase enableM maxD genCode render secs 0).2 := by
  unfold diagram_phase
  by_cases he : enableM = true
  · rw [if_pos he]
    obtain ⟨_, k2, k3⟩ :=
      diagram_loop_spec maxD genCode render
        (sort_candidates diagram_priority_keywords.length
          (diagram_candidates diagram_priority_keywords secs)) secs 0
        (Nat.zero_le _)
    exact ⟨k2, by omega⟩
  · rw [if_neg he]
    exact ⟨Nat.zero_le _, by simp⟩

theorem totalResolved_eq_zero (secs : List DocSection)
    (h : ∀ s ∈ secs, ∀ im ∈ s.images, im.path = []) :
    totalResolved secs = 0 := by
  induction secs with
  | nil => rfl
  | cons s rest ih =>
    rw [totalResolved_cons]
    have h1 : resolvedImages s = 0 := by
      unfold resolvedImages
      rw [List.countP_eq_zero]
      intro im him
      have := h s (List.mem_cons_self _ _) im him
      simp [this]
    have h2 : totalResolved rest = 0 :=
      ih (fun t ht im him => h t (List.mem_cons_of_mem _ ht) im him)
    omega

theorem totalMermaid_eq_zero (secs : List DocSection)
    (h : ∀ s ∈ secs, s.mermaid_diagrams = []) :
    totalMermaid secs = 0 := by
  induction secs with
  | nil => rfl
  | cons s rest ih =>
    rw [totalMermaid_cons]
    have h1 : s.mermaid_diagrams.length = 0 := by
      rw [h s (List.mem_cons_self _ _)]
      rfl
    have h2 : totalMermaid rest = 0 :=
      ih (fun t ht => h t (List.mem_cons_of_mem _ ht))
    omega

/-- C2: budget ceiling.  For any outline, priority configuration and
oracle behaviour, a full run resolves at most `maxS` screenshots (both by
counter and by counting resolved media after the screenshot phase, for
plan-fresh sections) and at most `maxD` diagrams; and once either counter
reaches its cap, the remaining candidates of that stream are skipped
unchanged. -/
theorem budget_ceiling (enable : Bool) (maxS : Nat) (priority : List (List Char))
    (contentOf : Nat → List Char) (targetsOf : Nat → List Target)
    (codeFileCap : List Char → List Char → Option (List Char))
    (dirTreeCap : Option (List Char)) (enableM : Bool) (maxD : Nat)
    (genCode : Nat → Option (List Char))
    (render : Nat → List Char → Option (List Char))
    (sections : List DocSection)
    (himg : ∀ s ∈ sections, ∀ im ∈ s.images, im.path = [])
    (hmer : ∀ s ∈ sections, s.mermaid_diagrams = []) :
    ∃ secs1 sc secs2 mc,
      run_pipeline enable maxS priority contentOf targetsOf codeFileCap
        dirTreeCap enableM maxD genCode render sections =
          some ((secs1, sc), (secs2, mc)) ∧
      sc ≤ maxS ∧ totalResolved secs1 ≤ maxS ∧
      mc ≤ maxD ∧ totalMermaid secs2 ≤ maxD ∧
      (∀ targets s c, maxS ≤ c →
        screenshot_step enable maxS priority targets
          (capture_target codeFileCap dirTreeCap) s c = some (s, c)) ∧
      (∀ cands secs c, maxD ≤ c →
        diagram_loop maxD genCode render cands secs c = (secs, c)) := by
  obtain ⟨secs1, sc, hp3, hc1, hc2, hres, hmer1⟩ :=
    phase3_spec enable maxS priority contentOf targetsOf
      (capture_target codeFileCap dirTreeCap) sections 0 0 (Nat.zero_le _)
  have hres0 : totalResolved sections = 0 := totalResolved_eq_zero sections himg
  have hmer0 : totalMermaid sections = 0 := totalMermaid_eq_zero sections hmer
  obtain ⟨hd1, hd2⟩ := diagram_phase_spec enableM maxD genCode render secs1
  refine ⟨secs1, sc, (diagram_phase enableM maxD genCode render secs1 0).1,
    (diagram_phase enableM maxD genCode render secs1 0).2, ?_, hc2, ?_, hd1,
    ?_, ?_, ?_⟩
  · unfold run_pipeline
    rw [hp3]
  · omega
  · omega
  · intro targets s c hc
    exact screenshot_step_skip enable maxS priority targets _ s c hc
  · intro cands secs c hc
    exact diagram_loop_skip maxD genCode render cands secs c hc

/-- Witness for C2 on an empty outline with trivial oracles. -/
theorem budget_ceiling_witness :
    (∀ s ∈ ([] : List DocSection), ∀ im ∈ s.images, im.path = []) ∧
    ∃ secs1 sc secs2 mc,
      run_pipeline true 1 [] (fun _ => []) (fun _ => [])
        (fun _ _ => none) none true 1 (fun _ => none) (fun _ _ => none) [] =
          some ((secs1, sc), (secs2, mc)) ∧
      sc ≤ 1 ∧ totalResolved secs1 ≤ 1 ∧
      mc ≤ 1 ∧ totalMermaid secs2 ≤ 1 ∧
      (∀ targets s c, 1 ≤ c →
        screenshot_step true 1 [] targets
          (capture_target (fun _ _ => none) none) s c = some (s, c)) ∧
      (∀ cands secs c, 1 ≤ c →
        diagram_loop 1 (fun _ => none) (fun _ _ => none) cands secs c =
          (secs, c)) :=
  ⟨by simp,
   budget_ceiling true 1 [] (fun _ => []) (fun _ => []) (fun _ _ => none)
     none true 1 (fun _ => none) (fun _ _ => none) [] (by simp) (by simp)⟩

/-- C10: screenshot-allocation index safety.  For every target list —
including one longer than the section's image list — the allocation loop
run the way `generate` runs it (break index `min(len(images), remaining)`,
start index 0) never hits the out-of-bounds write modelled by `none`, the
image list keeps its length, and the counter grows by at most that
minimum; consequently the screenshot block as a whole never faults. -/
theorem screenshot_index_safety (capFn : Target → Option (List Char))
    (targets : List Target) :
    (∀ (imgs : List ImageItem) (c remaining : Nat),
      ∃ imgs' c',
        resolve_targets capFn (min imgs.length remaining) 0 targets imgs c =
          some (imgs', c') ∧
        imgs'.length = imgs.length ∧
        c' ≤ c + min imgs.length remaining) ∧
    ∀ (enable : Bool) (maxS : Nat) (priority : List (List Char))
      (s : DocSection) (count : Nat),
      (screenshot_step enable maxS priority targets capFn s count).isSome =
        true := by
  constructor
  · intro imgs c remaining
    obtain ⟨imgs', c', hrec, hlen, _, hc2, _⟩ :=
      resolve_targets_spec capFn (min imgs.length remaining) targets 0 imgs c
        (min_le_left _ _)
    exact ⟨imgs', c', hrec, hlen, by omega⟩
  · intro enable maxS priority s count
    unfold screenshot_step
    by_cases h1 : (enable && !s.images.isEmpty && decide (count < maxS)) = true
    · rw [if_pos h1]
      by_cases h2 : should_capture_screenshot priority s.title = true
      · rw [if_pos h2]
        by_cases h3 : 0 < min s.images.length (maxS - count)
        · rw [if_pos h3]
          obtain ⟨imgs', c', hrec, _⟩ :=
            resolve_targets_spec capFn (min s.images.length (maxS - count))
              targets 0 s.images count (min_le_left _ _)
          rw [hrec]
          rfl
        · rw [if_neg h3]
          rfl
      · rw [if_neg h2]
        rfl
    · rw [if_neg h1]
      rfl

theorem firstRankFrom_spec (title : List Char) :
    ∀ (kws : List (List Char)) (base r : Nat),
      firstRankFrom title base kws = some r ↔
        ∃ k, r = base + k ∧ k < kws.length ∧
          strContains (lowerStr title) (kws.getD k []) = true ∧
          ∀ j, j < k → strContains (lowerStr title) (kws.getD j []) = false := by
  intro kws
  induction kws with
  | nil =>
    intro base r
    constructor
    · intro h
      exact absurd h (by simp [firstRankFrom])
    · rintro ⟨k, _, hk, _⟩
      simp at hk
  | cons kw rest ih =>
    intro base r
    constructor
    · intro h
      unfold firstRankFrom at h
      by_cases hc : strContains (lowerStr title) kw = true
      · rw [if_pos hc] at h
        injection h with h
        refine ⟨0, by omega, by simp, by simpa using hc, ?_⟩
        intro j hj
        omega
      · rw [if_neg hc] at h
        obtain ⟨k, hrk, hk, hcont, hall⟩ := (ih (base + 1) r).mp h
        refine ⟨k + 1, by omega, by simp only [List.length_cons]; omega,
          by simpa using hcont, ?_⟩
        intro j hj
        cases j with
        | zero =>
          have : strContains (lowerStr title) kw = false := by
            revert hc
            cases strContains (lowerStr title) kw <;> simp
          simpa using this
        | succ m =>
          have := hall m (by omega)
          simpa using this
    · rintro ⟨k, hrk, hk, hcont, hall⟩
      unfold firstRankFrom
      cases k with
      | zero =>
        have hc : strContains (lowerStr title) kw = true := by simpa using hcont
        rw [if_pos hc]
        simp [hrk]
      | succ m =>
        have hc0 : strContains (lowerStr title) kw = false := by
          have := hall 0 (by omega)
          simpa using this
        rw [if_neg (by simp [hc0])]
        apply (ih (base + 1) r).mpr
        refine ⟨m, by omega, by simp only [List.length_cons] at hk; omega,
          by simpa using hcont, ?_⟩
        intro j hj
        have := hall (j + 1) (by omega)
        simpa using this

theorem first_keyword_rank_spec (kws : List (List Char)) (title : List Char)
    (r : Nat) :
    first_keyword_rank kws title = some r ↔
      r < kws.length ∧
      strContains (lowerStr title) (kws.getD r []) = true ∧
      ∀ j, j < r → strContains (lowerStr title) (kws.getD j []) = false := by
  unfold first_keyword_rank
  rw [firstRankFrom_spec]
  constructor
  · rintro ⟨k, hrk, h1, h2, h3⟩
    have hkr : k = r := by omega
    subst hkr
    exact ⟨h1, h2, h3⟩
  · rintro ⟨h1, h2, h3⟩
    exact ⟨r, by omega, h1, h2, h3⟩

theorem diagram_candidates_mem (kws : List (List Char))
    (secs : List DocSection) (r idx : Nat) :
    (r, idx) ∈ diagram_candidates kws secs ↔
      ∃ s, secs[idx]? = some s ∧
        first_keyword_rank kws s.title = some r := by
  unfold diagram_candidates
  rw [List.mem_filterMap]
  constructor
  · rintro ⟨⟨i, s⟩, hmem, hmap⟩
    cases hrank : first_keyword_rank kws s.title with
    | none =>
      rw [hrank] at hmap
      simp at hmap
    | some r' =>
      rw [hrank] at hmap
      simp at hmap
      obtain ⟨hr, hi⟩ := hmap
      refine ⟨s, ?_, ?_⟩
      · rw [← hi]
        exact List.mk_mem_enum_iff_getElem?.mp hmem
      · rw [hrank, hr]
  · rintro ⟨s, hget, hrank⟩
    refine ⟨(idx, s), ?_, ?_⟩
    · exact List.mk_mem_enum_iff_getElem?.mpr hget
    · rw [hrank]
      rfl

theorem diagram_candidates_rank_lt (kws : List (List Char))
    (secs : List DocSection) :
    ∀ c ∈ diagram_candidates kws secs, c.1 < kws.length := by
  rintro ⟨r, idx⟩ hmem
  obtain ⟨s, _, hrank⟩ := (diagram_candidates_mem kws secs r idx).mp hmem
  exact ((first_keyword_rank_spec kws s.title r).mp hrank).1

theorem countP_filter_rank (a : Nat × Nat) (r : Nat) :
    ∀ l : List (Nat × Nat),
      (l.filter (fun c => decide (c.1 = r))).countP (fun c => decide (c = a)) =
        if a.1 = r then l.countP (fun c => decide (c = a)) else 0 := by
  intro l
  induction l with
  | nil => simp
  | cons b t ih =>
    by_cases hb : b.1 = r
    · rw [List.filter_cons_of_pos (by simp [hb])]
      rw [List.countP_cons, List.countP_cons, ih]
      by_cases hab : b = a
      · have har : a.1 = r := by rw [← hab]; exact hb
        simp [hab, har]
      · by_cases har : a.1 = r <;> simp [hab, har]
    · rw [List.filter_cons_of_neg (by simp [hb])]
      rw [ih, List.countP_cons]
      by_cases hab : b = a
      · have har : ¬ a.1 = r := by rw [← hab]; exact hb
        simp [hab, har]
      · by_cases har : a.1 = r <;> simp [hab, har]

theorem sum_map_ite_rank (n k v : Nat) :
    ((List.range n).map (fun r => if k = r then v else 0)).sum =
      if k < n then v else 0 := by
  induction n with
  | zero => simp
  | succ m ih =>
    rw [List.range_succ, List.map_append, List.sum_append]
    simp only [List.map_cons, List.map_nil, List.sum_cons, List.sum_nil]
    rw [ih]
    by_cases h1 : k = m <;> by_cases h2 : k < m <;> split_ifs <;> omega

theorem sort_candidates_perm (n : Nat) (cands : List (Nat × Nat))
    (h : ∀ c ∈ cands, c.1 < n) :
    (sort_candidates n cands).Perm cands := by
  rw [List.perm_iff_count]
  intro a
  unfold sort_candidates
  show (((List.range n).map
      (fun r => cands.filter (fun c => decide (c.1 = r)))).flatten).countP
      (fun c => decide (c = a)) =
    cands.countP (fun c => decide (c = a))
  rw [List.countP_flatten, List.map_map]
  trans ((List.range n).map
    (fun r => if a.1 = r then cands.countP (fun c => decide (c = a))
      else 0)).sum
  · apply congrArg
    apply List.map_congr_left
    intro r _
    show (cands.filter (fun c => decide (c.1 = r))).countP
      (fun c => decide (c = a)) = _
    exact countP_filter_rank a r cands
  · rw [sum_map_ite_rank]
    show _ = cands.countP (fun c => decide (c = a))
    by_cases hmem : a ∈ cands
    · rw [if_pos (h a hmem)]
    · have hz : cands.countP (fun c => decide (c = a)) = 0 := by
        rw [List.countP_eq_zero]
        intro b hb hba
        have hba' : b = a := by simpa using hba
        exact hmem (hba' ▸ hb)
      rw [hz]
      split_ifs <;> rfl

theorem sort_candidates_sorted (n : Nat) (cands : List (Nat × Nat)) :
    (sort_candidates n cands).Pairwise (fun c d => c.1 ≤ d.1) := by
  unfold sort_candidates
  rw [List.pairwise_flatten]
  constructor
  · intro l hl
    rw [List.mem_map] at hl
    obtain ⟨r, _, rfl⟩ := hl
    apply List.pairwise_of_forall_mem_list
    intro x hx y hy
    have hxr := List.of_mem_filter hx
    have hyr := List.of_mem_filter hy
    simp at hxr hyr
    omega
  · rw [List.pairwise_map]
    apply (List.pairwise_lt_range n).imp
    intro r1 r2 hlt x hx y hy
    have hxr := List.of_mem_filter hx
    have hyr := List.of_mem_filter hy
    simp at hxr hyr
    omega

theorem flatten_map_single_rank (X : List (Nat × Nat)) :
    ∀ (n r : Nat), r < n →
      (((List.range n).map (fun q => if q = r then X else [])).flatten) = X := by
  intro n
  induction n with
  | zero => intro r hr; omega
  | succ m ih =>
    intro r hr
    rw [List.range_succ, List.map_append, List.flatten_append]
    by_cases h : r = m
    · subst h
      have hnil : (((List.range r).map
          (fun q => if q = r then X else [])).flatten) = [] := by
        rw [List.flatten_eq_nil_iff]
        intro l hl
        rw [List.mem_map] at hl
        obtain ⟨q, hq, rfl⟩ := hl
        rw [List.mem_range] at hq
        rw [if_neg (by omega)]
      rw [hnil]
      simp
    · have hr' : r < m := by omega
      rw [ih r hr']
      simp [Ne.symm h]

theorem sort_candidates_stable (n : Nat) (cands : List (Nat × Nat)) (r : Nat)
    (hr : r < n) :
    (sort_candidates n cands).filter (fun c => decide (c.1 = r)) =
      cands.filter (fun c => decide (c.1 = r)) := by
  unfold sort_candidates
  rw [List.filter_flatten, List.map_map]
  have hcomp : ∀ q : Nat,
      (cands.filter (fun c => decide (c.1 = q))).filter
        (fun c => decide (c.1 = r)) =
      if q = r then cands.filter (fun c => decide (c.1 = r)) else [] := by
    intro q
    by_cases hqr : q = r
    · subst hqr
      rw [if_pos rfl, List.filter_filter]
      apply List.filter_congr
      intro c _
      simp
    · rw [if_neg hqr, List.filter_filter]
      rw [List.filter_eq_nil_iff]
      intro c _
      simp
      intro h1 h2
      exact hqr (by omega)
  have hmap : (List.range n).map
      (List.filter (fun c => decide (c.1 = r)) ∘
        fun q => cands.filter (fun c => decide (c.1 = q))) =
      (List.range n).map
        (fun q => if q = r then cands.filter (fun c => decide (c.1 = r))
          else []) := by
    apply List.map_congr_left
    intro q _
    exact hcomp q
  rw [hmap]
  exact flatten_map_single_rank _ n r hr

/-- C7 counterexample: the claim (and spec) list the diagram keywords as
architecture/overview/design/components, but the code configures
overview/architecture/design/components, so ranks — and with them the
visiting order — differ: a section titled Overview has rank 0 in the
code, not 1, and with sections [Architecture, Overview] the code visits
Overview (index 1) first while the claimed order would visit Architecture
(index 0) first. -/
theorem diagram_keyword_order_counterexample :
    first_keyword_rank diagram_priority_keywords "Overview".toList = some 0 ∧
    first_keyword_rank diagram_keywords_claimed "Overview".toList = some 1 ∧
    first_keyword_rank diagram_priority_keywords "Architecture".toList =
      some 1 ∧
    first_keyword_rank diagram_keywords_claimed "Architecture".toList =
      some 0 ∧
    sort_candidates diagram_priority_keywords.length
      (diagram_candidates diagram_priority_keywords
        [sectionArchitecture, sectionOverview]) = [(0, 1), (1, 0)] ∧
    sort_candidates diagram_keywords_claimed.length
      (diagram_candidates diagram_keywords_claimed
        [sectionArchitecture, sectionOverview]) = [(0, 0), (1, 1)] := by
  refine ⟨by decide, by decide, by decide, by decide, by decide, by decide⟩

/-- C7 as amended (keyword order overview/architecture/design/components):
the candidates are exactly the sections whose lowercased title contains a
configured keyword, each with rank the position of its first matching
keyword in the configured list; the visit order is ascending rank with
equal ranks in outline order (the stable sort is a rank-grouped
permutation of the candidate list); and the loop stops as soon as the
diagram counter reaches its cap. -/
theorem diagram_allocation_order :
    (∀ (title : List Char) (r : Nat),
      first_keyword_rank diagram_priority_keywords title = some r ↔
        r < diagram_priority_keywords.length ∧
        strContains (lowerStr title)
          (diagram_priority_keywords.getD r []) = true ∧
        ∀ j, j < r → strContains (lowerStr title)
          (diagram_priority_keywords.getD j []) = false) ∧
    (∀ (secs : List DocSection) (r idx : Nat),
      (r, idx) ∈ diagram_candidates diagram_priority_keywords secs ↔
        ∃ s, secs[idx]? = some s ∧
          first_keyword_rank diagram_priority_keywords s.title = some r) ∧
    (∀ secs : List DocSection,
      (sort_candidates diagram_priority_keywords.length
        (diagram_candidates diagram_priority_keywords secs)).Perm
        (diagram_candidates diagram_priority_keywords secs)) ∧
    (∀ secs : List DocSection,
      (sort_candidates diagram_priority_keywords.length
        (diagram_candidates diagram_priority_keywords secs)).Pairwise
        (fun c d => c.1 ≤ d.1)) ∧
    (∀ (secs : List DocSection) (r : Nat),
      r < diagram_priority_keywords.length →
      (sort_candidates diagram_priority_keywords.length
        (diagram_candidates diagram_priority_keywords secs)).filter
          (fun c => decide (c.1 = r)) =
        (diagram_candidates diagram_priority_keywords secs).filter
          (fun c => decide (c.1 = r))) ∧
    (∀ (maxD : Nat) (genCode : Nat → Option (List Char))
      (render : Nat → List Char → Option (List Char))
      (cands : List (Nat × Nat)) (secs : List DocSection) (count : Nat),
      maxD ≤ count →
      diagram_loop maxD genCode render cands secs count = (secs, count)) :=
  ⟨fun title r => first_keyword_rank_spec diagram_priority_keywords title r,
   fun secs r idx => diagram_candidates_mem diagram_priority_keywords secs r idx,
   fun secs => sort_candidates_perm diagram_priority_keywords.length
     (diagram_candidates diagram_priority_keywords secs)
     (diagram_candidates_rank_lt diagram_priority_keywords secs),
   fun secs => sort_candidates_sorted diagram_priority_keywords.length
     (diagram_candidates diagram_priority_keywords secs),
   fun secs r hr => sort_candidates_stable diagram_priority_keywords.length
     (diagram_candidates diagram_priority_keywords secs) r hr,
   fun maxD genCode render cands secs count h =>
     diagram_loop_skip maxD genCode render cands secs count h⟩

/-- Witness for C7's amended statement: the filter-stability conjunct at
rank 0 on a one-section outline, and the cap-stop conjunct at cap 1 with
the counter already at 1. -/
theorem diagram_allocation_order_witness :
    ((sort_candidates diagram_priority_keywords.length
      (diagram_candidates diagram_priority_keywords [sectionOverview])).filter
        (fun c => decide (c.1 = 0)) =
      (diagram_candidates diagram_priority_keywords [sectionOverview]).filter
        (fun c => decide (c.1 = 0))) ∧
    diagram_loop 1 (fun _ => some "flowchart".toList)
      (fun _ _ => some "p.png".toList) [(0, 0)] [sectionOverview] 1 =
      ([sectionOverview], 1) :=
  ⟨diagram_allocation_order.2.2.2.2.1 [sectionOverview] 0 (by decide),
   diagram_allocation_order.2.2.2.2.2 1 (fun _ => some "flowchart".toList)
     (fun _ _ => some "p.png".toList) [(0, 0)] [sectionOverview] 1
     (by decide)⟩

/-- C3 concerns the planner's fallback guarantee.  The true half: a parse
failure, or a top level whose required keys are missing after repairs,
recovers locally to the fixed fallback plan whose sections are titled
Overview, Installation and Usage.  The refuted half ("planning never
halts the run solely because the outline response was malformed"): a
malformed response whose section entry lacks `"title"` passes the
top-level validation and then raises an uncaught `KeyError` in the plan
construction outside the `try` block, halting the run — contradicting the
code's own comment that the fallback "ensures generation continues even
if AI output is malformed". -/
theorem planner_fallback_and_uncaught_keyerror :
    (∀ name : List Char,
      create_plan_from_parse none name = Except.ok (fallback_plan name) ∧
      create_plan_from_parse (some (Json.obj [("outline".toList, Json.arr [])]))
          name = Except.ok (fallback_plan name) ∧
      (fallback_plan name).sections.map PlanSection.title =
        [Json.str "Overview".toList, Json.str "Installation".toList,
         Json.str "Usage".toList]) ∧
    create_plan_from_parse (some malformed_section_response) ['P'] =
      Except.error PyErr.keyError :=
  ⟨fun _ => ⟨rfl, rfl, rfl⟩, rfl⟩
